import Mathlib

/-!
Verification of the `kdecode` document transform (`parse_input` in
`src/main.rs`).

The program reads a YAML document into a generic JSON-like value, then
`parse_input` rewrites `kind: Secret` objects by removing their `data`
field, base64-decoding each entry, and merging the decoded entries into
`stringData`; `kind: List` objects have `parse_input` applied to every
element of their `items` array; everything else passes through unchanged.

The embedding below models `serde_json::Value` as an inductive `Value`
with objects as ordered association lists (insertion order significant,
per the spec's data model; the concrete ordered-map behaviour of
`serde_json::Map` is configured outside the vendored source, so the
removal/insert order semantics follow the spec: removal preserves the
relative order of the remaining keys, inserting an existing key replaces
in place, inserting a fresh key appends at the end).

The Rust code fails through `.unwrap()` panics; each failure site is
embedded as an explicit error: a `None` from `as_object`/`as_str`/
`as_array` becomes `typeError`, a failed `base64::decode` becomes
`decodeError` (the crate's own error type), and a failed
`String::from_utf8` becomes `encodingError`.  In all cases the whole
transform aborts with no output, which is exactly the observable
behaviour of the panic.
-/

/-- The generic structured value (`serde_json::Value`): null, booleans,
numbers, strings, arrays, and objects as ordered key/value lists. -/
inductive Value where
  | null : Value
  | bool (b : Bool) : Value
  | num (n : Int) : Value
  | str (s : String) : Value
  | arr (items : List Value) : Value
  | obj (entries : List (String × Value)) : Value

/-- The `Value == &str` comparison of `serde_json` (`kind == "Secret"`):
true exactly when the value is a string with that content. -/
def valueEqStr (v : Value) (s : String) : Bool :=
  match v with
  | .str t => t = s
  | _ => false

/-! ### Ordered-map operations (the behaviour of `serde_json::Map`) -/

/-- Lookup (`Map::get`): the value at the first entry with the given key. -/
def mapGet (m : List (String × Value)) (k : String) : Option Value :=
  match m with
  | [] => none
  | (k', v) :: rest => if k' = k then some v else mapGet rest k

/-- Removal (`Map::remove`): drop the entry with the given key, keeping the
relative order of all other entries. -/
def mapRemoveKey (m : List (String × Value)) (k : String) : List (String × Value) :=
  match m with
  | [] => []
  | (k', v) :: rest => if k' = k then rest else (k', v) :: mapRemoveKey rest k

/-- Insertion (`Map::insert`): replace in place when the key is present,
otherwise append at the end. -/
def mapInsert (m : List (String × Value)) (k : String) (v : Value) :
    List (String × Value) :=
  match m with
  | [] => [(k, v)]
  | (k', v') :: rest => if k' = k then (k, v) :: rest else (k', v') :: mapInsert rest k v

/-- The key list of an object, in insertion order. -/
def mapKeys (m : List (String × Value)) : List String :=
  m.map Prod.fst

/-! ### Base64 decoding (`base64::decode`) -/

/-- The value of one character of the standard base64 alphabet. -/
def b64Val (c : Char) : Option Nat :=
  if 'A' ≤ c ∧ c ≤ 'Z' then some (c.toNat - 65)
  else if 'a' ≤ c ∧ c ≤ 'z' then some (c.toNat - 97 + 26)
  else if '0' ≤ c ∧ c ≤ '9' then some (c.toNat - 48 + 52)
  else if c = '+' then some 62
  else if c = '/' then some 63
  else none

/-- Decode a base64 character stream four characters at a time; `=` padding
is accepted only at the very end, and a trailing group of two or three
characters is decoded like a padded final group.  Returns the byte
sequence, or `none` when the input is not valid base64. -/
def b64DecodeChars : List Char → Option (List Nat)
  | [] => some []
  | [c1, c2] => do
      let v1 ← b64Val c1
      let v2 ← b64Val c2
      some [v1 * 4 + v2 / 16]
  | [c1, c2, c3] => do
      let v1 ← b64Val c1
      let v2 ← b64Val c2
      let v3 ← b64Val c3
      some [v1 * 4 + v2 / 16, v2 % 16 * 16 + v3 / 4]
  | c1 :: c2 :: c3 :: c4 :: rest =>
      if c4 = '=' then
        if rest ≠ [] then none
        else if c3 = '=' then do
          let v1 ← b64Val c1
          let v2 ← b64Val c2
          some [v1 * 4 + v2 / 16]
        else do
          let v1 ← b64Val c1
          let v2 ← b64Val c2
          let v3 ← b64Val c3
          some [v1 * 4 + v2 / 16, v2 % 16 * 16 + v3 / 4]
      else do
        let v1 ← b64Val c1
        let v2 ← b64Val c2
        let v3 ← b64Val c3
        let v4 ← b64Val c4
        let tail ← b64DecodeChars rest
        some ([v1 * 4 + v2 / 16, v2 % 16 * 16 + v3 / 4, v3 % 4 * 64 + v4] ++ tail)
  | _ => none

/-- `base64::decode` on a string: the decoded bytes, or `none` on invalid
base64 (which the Rust code turns into a `DecodeError` panic). -/
def base64Decode (s : String) : Option (List Nat) :=
  b64DecodeChars s.data

/-! ### UTF-8 decoding (`String::from_utf8`) -/

/-- Decode a UTF-8 byte sequence into characters, rejecting truncated
sequences, stray continuation bytes, overlong encodings, surrogates and
code points above `0x10FFFF`. -/
def utf8Decode : List Nat → Option (List Char)
  | [] => some []
  | b :: rest =>
    if b < 0x80 then (utf8Decode rest).map (Char.ofNat b :: ·)
    else if b < 0xC2 then none
    else if b < 0xE0 then
      match rest with
      | b2 :: rest' =>
          if 0x80 ≤ b2 ∧ b2 < 0xC0 then
            (utf8Decode rest').map (Char.ofNat ((b - 0xC0) * 64 + (b2 - 0x80)) :: ·)
          else none
      | [] => none
    else if b < 0xF0 then
      match rest with
      | b2 :: b3 :: rest' =>
          let lo2 := if b = 0xE0 then 0xA0 else 0x80
          let hi2 := if b = 0xED then 0xA0 else 0xC0
          if lo2 ≤ b2 ∧ b2 < hi2 ∧ 0x80 ≤ b3 ∧ b3 < 0xC0 then
            (utf8Decode rest').map
              (Char.ofNat ((b - 0xE0) * 4096 + (b2 - 0x80) * 64 + (b3 - 0x80)) :: ·)
          else none
      | _ => none
    else if b < 0xF5 then
      match rest with
      | b2 :: b3 :: b4 :: rest' =>
          let lo2 := if b = 0xF0 then 0x90 else 0x80
          let hi2 := if b = 0xF4 then 0x90 else 0xC0
          if lo2 ≤ b2 ∧ b2 < hi2 ∧ 0x80 ≤ b3 ∧ b3 < 0xC0 ∧ 0x80 ≤ b4 ∧ b4 < 0xC0 then
            (utf8Decode rest').map
              (Char.ofNat ((b - 0xF0) * 262144 + (b2 - 0x80) * 4096 +
                (b3 - 0x80) * 64 + (b4 - 0x80)) :: ·)
          else none
      | _ => none
    else none

/-- `String::from_utf8` on a byte list. -/
def utf8DecodeString (bs : List Nat) : Option String :=
  (utf8Decode bs).map fun cs => ⟨cs⟩

/-! ### The transform -/

/-- The failure modes of the transform: each `.unwrap()` in the source
aborts the whole run; `typeError` stands for a failed
`as_object`/`as_str`/`as_array`, `decodeError` for a failed
`base64::decode`, and `encodingError` for a failed `String::from_utf8`. -/
inductive TransformError where
  | typeError : TransformError
  | decodeError : TransformError
  | encodingError : TransformError
deriving DecidableEq

/-- The loop copying the pre-existing `stringData` entries into the fresh
merge map (`for (key, value) in existing_string_data.as_object()`). -/
def copyEntries (acc : List (String × Value)) :
    List (String × Value) → List (String × Value)
  | [] => acc
  | (k, v) :: rest => copyEntries (mapInsert acc k v) rest

/-- The loop over the removed `data` entries: each value must be a string
(`as_str`), base64-decode (`base64::decode`) and be valid UTF-8
(`String::from_utf8`); the decoded text is inserted into the merge map,
overwriting an existing entry under the same key. -/
def decodeDataEntries (acc : List (String × Value)) :
    List (String × Value) → Except TransformError (List (String × Value))
  | [] => .ok acc
  | (k, v) :: rest =>
    match v with
    | .str s =>
      match base64Decode s with
      | none => .error .decodeError
      | some bytes =>
        match utf8DecodeString bytes with
        | none => .error .encodingError
        | some txt => decodeDataEntries (mapInsert acc k (.str txt)) rest
    | _ => .error .typeError

/-- The `kind == "Secret"` branch of `parse_input`: remove `data` (if
absent, the object is returned as-is), remove a present `stringData` and
copy its entries, decode every `data` entry into the merge map, and insert
the merge map back under `stringData`. -/
def transformSecret (m : List (String × Value)) : Except TransformError Value :=
  match mapGet m "data" with
  | none => .ok (.obj m)
  | some data =>
    let m1 := mapRemoveKey m "data"
    match mapGet m1 "stringData" with
    | some esd =>
      let m2 := mapRemoveKey m1 "stringData"
      match esd with
      | .obj esdEntries =>
        (match data with
         | .obj dataEntries =>
             (decodeDataEntries (copyEntries [] esdEntries) dataEntries).map
               fun sd => .obj (mapInsert m2 "stringData" (.obj sd))
         | _ => .error .typeError)
      | _ => .error .typeError
    | none =>
      match data with
      | .obj dataEntries =>
          (decodeDataEntries [] dataEntries).map
            fun sd => .obj (mapInsert m1 "stringData" (.obj sd))
      | _ => .error .typeError

theorem sizeOf_mapGet {m : List (String × Value)} {k : String} {v : Value}
    (h : mapGet m k = some v) : sizeOf v < sizeOf m := by
  induction m with
  | nil => simp [mapGet] at h
  | cons hd tl ih =>
    obtain ⟨k', v'⟩ := hd
    rw [mapGet] at h
    by_cases hk : k' = k
    · simp [hk] at h
      subst h
      simp
      omega
    · simp [hk] at h
      have := ih h
      simp
      omega

mutual

/-- The transform (`fn parse_input` in `src/main.rs`): on an object whose
`kind` is `"Secret"` decode its `data` into `stringData`; on an object
whose `kind` is `"List"` apply the transform to every element of a present
`items` array (a present non-array `items` makes `as_array().unwrap()`
abort); all other values pass through unchanged. -/
def parse_input : Value → Except TransformError Value
  | .obj m =>
    match mapGet m "kind" with
    | some kind =>
      if valueEqStr kind "Secret" then transformSecret m
      else if valueEqStr kind "List" then
        match h : mapGet m "items" with
        | some (.arr xs) =>
            (parseItems xs).map fun ys => .obj (mapInsert m "items" (.arr ys))
        | some _ => .error .typeError
        | none => .ok (.obj m)
      else .ok (.obj m)
    | none => .ok (.obj m)
  | v => .ok v
termination_by v => sizeOf v
decreasing_by
  simp_wf
  have h1 := sizeOf_mapGet h
  simp at h1 ⊢
  omega

/-- The loop building `newItems`: `parse_input` applied to every element in
order, aborting at the first failure. -/
def parseItems : List Value → Except TransformError (List Value)
  | [] => .ok []
  | x :: xs =>
    match parse_input x with
    | .error e => .error e
    | .ok y =>
      match parseItems xs with
      | .error e => .error e
      | .ok ys => .ok (y :: ys)
termination_by xs => sizeOf xs
decreasing_by
  all_goals simp_wf
  all_goals omega

end

/-! ### Spec-side definitions (for the refinement-style claims) -/

/-- The decoded text of one `data` entry value, following the spec's words:
the value must be a string whose base64 decoding is valid UTF-8 text. -/
def specDecodeValue : Value → Option String
  | .str s => (base64Decode s).bind utf8DecodeString
  | _ => none

/-- The merged `stringData` map as the spec words it: start from the
pre-transform `stringData` entries and insert, for each `data` entry in
order, the decoded value under its key, overwriting any existing entry
with the same key. -/
def specMergedStringData (sd : List (String × Value)) :
    List (String × Value) → Option (List (String × Value))
  | [] => some sd
  | (k, v) :: rest =>
    (specDecodeValue v).bind fun t => specMergedStringData (mapInsert sd k (.str t)) rest

/-! ### Ordered-map lemmas -/

theorem mapGet_mapInsert_self (m : List (String × Value)) (k : String) (v : Value) :
    mapGet (mapInsert m k v) k = some v := by
  induction m with
  | nil => simp [mapInsert, mapGet]
  | cons hd tl ih =>
    obtain ⟨k', v'⟩ := hd
    by_cases hk : k' = k
    · simp [mapInsert, mapGet, hk]
    · simp [mapInsert, mapGet, hk, ih]

theorem mapGet_mapInsert_ne (m : List (String × Value)) {k k' : String}
    (h : k' ≠ k) (v : Value) : mapGet (mapInsert m k' v) k = mapGet m k := by
  induction m with
  | nil => simp [mapInsert, mapGet, h]
  | cons hd tl ih =>
    obtain ⟨k'', v''⟩ := hd
    by_cases hk : k'' = k'
    · subst hk
      simp [mapInsert, mapGet, h]
    · simp [mapInsert, mapGet, hk, ih]

theorem mapGet_mapRemoveKey_ne (m : List (String × Value)) {k k' : String}
    (h : k' ≠ k) : mapGet (mapRemoveKey m k') k = mapGet m k := by
  induction m with
  | nil => simp [mapRemoveKey, mapGet]
  | cons hd tl ih =>
    obtain ⟨k'', v''⟩ := hd
    by_cases hk : k'' = k'
    · subst hk
      simp [mapRemoveKey, mapGet, h, Ne.symm h]
    · simp [mapRemoveKey, mapGet, hk, ih]

theorem mapKeys_mapRemoveKey (m : List (String × Value)) (k : String) :
    mapKeys (mapRemoveKey m k) = (mapKeys m).erase k := by
  induction m with
  | nil => simp [mapRemoveKey, mapKeys]
  | cons hd tl ih =>
    obtain ⟨k', v'⟩ := hd
    by_cases hk : k' = k
    · simp [mapRemoveKey, mapKeys, hk, List.erase_cons_head]
    · simp only [mapRemoveKey, mapKeys, hk, if_false, List.map_cons]
      rw [List.erase_cons_tail]
      · exact congrArg (k' :: ·) ih
      · simp [hk]

theorem mapGet_eq_none_of_not_mem {m : List (String × Value)} {k : String}
    (h : k ∉ mapKeys m) : mapGet m k = none := by
  induction m with
  | nil => simp [mapGet]
  | cons hd tl ih =>
    obtain ⟨k', v'⟩ := hd
    simp only [mapKeys, List.map_cons, List.mem_cons, not_or] at h
    rw [mapGet, if_neg (fun he => h.1 he.symm)]
    exact ih (by simpa [mapKeys] using h.2)

theorem mapGet_mapRemoveKey_self {m : List (String × Value)} {k : String}
    (h : (mapKeys m).Nodup) : mapGet (mapRemoveKey m k) k = none := by
  induction m with
  | nil => simp [mapRemoveKey, mapGet]
  | cons hd tl ih =>
    obtain ⟨k', v'⟩ := hd
    simp only [mapKeys, List.map_cons, List.nodup_cons] at h
    by_cases hk : k' = k
    · subst hk
      rw [mapRemoveKey, if_pos rfl]
      exact mapGet_eq_none_of_not_mem (by simpa [mapKeys] using h.1)
    · rw [mapRemoveKey, if_neg hk, mapGet, if_neg hk]
      exact ih h.2

theorem mapKeys_mapInsert_of_mem {m : List (String × Value)} {k : String}
    (h : mapGet m k ≠ none) (v : Value) : mapKeys (mapInsert m k v) = mapKeys m := by
  induction m with
  | nil => simp [mapGet] at h
  | cons hd tl ih =>
    obtain ⟨k', v'⟩ := hd
    by_cases hk : k' = k
    · simp [mapInsert, mapKeys, hk]
    · rw [mapGet, if_neg hk] at h
      have htl := ih h
      simp only [mapKeys, List.map_cons] at htl ⊢
      rw [mapInsert, if_neg hk]
      simp [htl]

theorem mapInsert_of_not_mem {m : List (String × Value)} {k : String}
    (h : mapGet m k = none) (v : Value) : mapInsert m k v = m ++ [(k, v)] := by
  induction m with
  | nil => simp [mapInsert]
  | cons hd tl ih =>
    obtain ⟨k', v'⟩ := hd
    rw [mapGet] at h
    by_cases hk : k' = k
    · simp [hk] at h
    · rw [if_neg hk] at h
      simp [mapInsert, hk, ih h]

theorem mapKeys_append (a b : List (String × Value)) :
    mapKeys (a ++ b) = mapKeys a ++ mapKeys b := by
  simp [mapKeys]

theorem mapGet_append (a b : List (String × Value)) (k : String) :
    mapGet (a ++ b) k = ((mapGet a k).rec (mapGet b k) fun v => some v) := by
  induction a with
  | nil => simp [mapGet]
  | cons hd tl ih =>
    obtain ⟨k', v'⟩ := hd
    by_cases hk : k' = k
    · simp [mapGet, hk]
    · simp [mapGet, hk, ih]

theorem copyEntries_of_disjoint (sd : List (String × Value)) :
    ∀ acc : List (String × Value), (∀ p ∈ sd, mapGet acc p.1 = none) →
    (sd.map Prod.fst).Nodup → copyEntries acc sd = acc ++ sd := by
  induction sd with
  | nil => intro acc _ _; simp [copyEntries]
  | cons hd tl ih =>
    intro acc hdisj hnd
    obtain ⟨k, v⟩ := hd
    rw [copyEntries, mapInsert_of_not_mem (hdisj (k, v) (by simp)) v]
    simp only [List.map_cons, List.nodup_cons] at hnd
    rw [ih (acc ++ [(k, v)]) ?_ hnd.2]
    · simp
    · intro p hp
      rw [mapGet_append]
      rw [hdisj p (by simp [hp])]
      have hne : k ≠ p.1 := fun he => hnd.1 (he ▸ List.mem_map_of_mem Prod.fst hp)
      simp [mapGet, hne]

/-- With unique keys, copying all entries into a fresh map reproduces the
entry list exactly. -/
theorem copyEntries_nil (sd : List (String × Value)) (hnd : (sd.map Prod.fst).Nodup) :
    copyEntries [] sd = sd := by
  simpa using copyEntries_of_disjoint sd [] (by intro p _; simp [mapGet]) hnd

/-! ### Unfolding lemmas for the transform -/

theorem parse_input_not_obj {v : Value} (h : ∀ m, v ≠ .obj m) :
    parse_input v = .ok v := by
  cases v with
  | obj m => exact absurd rfl (h m)
  | null => simp [parse_input]
  | bool b => simp [parse_input]
  | num n => simp [parse_input]
  | str s => simp [parse_input]
  | arr xs => simp [parse_input]

theorem parse_input_no_kind {m : List (String × Value)}
    (h : mapGet m "kind" = none) : parse_input (.obj m) = .ok (.obj m) := by
  simp [parse_input, h]

theorem parse_input_other_kind {m : List (String × Value)} {kind : Value}
    (hk : mapGet m "kind" = some kind)
    (h1 : valueEqStr kind "Secret" = false) (h2 : valueEqStr kind "List" = false) :
    parse_input (.obj m) = .ok (.obj m) := by
  simp [parse_input, hk, h1, h2]

theorem parse_input_secret {m : List (String × Value)}
    (hk : mapGet m "kind" = some (.str "Secret")) :
    parse_input (.obj m) = transformSecret m := by
  simp [parse_input, hk, valueEqStr]

theorem parse_input_list_arr {m : List (String × Value)} {xs : List Value}
    (hk : mapGet m "kind" = some (.str "List"))
    (hi : mapGet m "items" = some (.arr xs)) :
    parse_input (.obj m) =
      (parseItems xs).map fun ys => .obj (mapInsert m "items" (.arr ys)) := by
  simp [parse_input, hk, valueEqStr]
  split <;> simp_all

theorem parse_input_list_no_items {m : List (String × Value)}
    (hk : mapGet m "kind" = some (.str "List"))
    (hi : mapGet m "items" = none) :
    parse_input (.obj m) = .ok (.obj m) := by
  simp [parse_input, hk, valueEqStr]
  split <;> simp_all

theorem parse_input_list_bad_items {m : List (String × Value)} {it : Value}
    (hk : mapGet m "kind" = some (.str "List"))
    (hi : mapGet m "items" = some it) (hna : ∀ xs, it ≠ .arr xs) :
    parse_input (.obj m) = .error .typeError := by
  simp [parse_input, hk, valueEqStr]
  split
  · rename_i xs' heq
    rw [hi] at heq
    injection heq with h1
    exact absurd h1 (hna xs')
  · rfl
  · rename_i heq
    rw [hi] at heq
    simp at heq

theorem transformSecret_no_data {m : List (String × Value)}
    (h : mapGet m "data" = none) : transformSecret m = .ok (.obj m) := by
  simp [transformSecret, h]

theorem transformSecret_data_sd {m de sdE : List (String × Value)}
    (hd : mapGet m "data" = some (.obj de))
    (hsd : mapGet (mapRemoveKey m "data") "stringData" = some (.obj sdE)) :
    transformSecret m =
      (decodeDataEntries (copyEntries [] sdE) de).map fun sd =>
        .obj (mapInsert (mapRemoveKey (mapRemoveKey m "data") "stringData")
          "stringData" (.obj sd)) := by
  simp [transformSecret, hd, hsd]

theorem transformSecret_data_no_sd {m de : List (String × Value)}
    (hd : mapGet m "data" = some (.obj de))
    (hsd : mapGet (mapRemoveKey m "data") "stringData" = none) :
    transformSecret m =
      (decodeDataEntries [] de).map fun sd =>
        .obj (mapInsert (mapRemoveKey m "data") "stringData" (.obj sd)) := by
  simp [transformSecret, hd, hsd]

/-! ### The decode loop vs. the spec's merge description -/

/-- The source's decode loop succeeds exactly when the spec's merge map is
defined, and they then agree. -/
theorem decodeDataEntries_ok_iff (de : List (String × Value)) :
    ∀ acc r, decodeDataEntries acc de = .ok r ↔ specMergedStringData acc de = some r := by
  induction de with
  | nil =>
    intro acc r
    simp [decodeDataEntries, specMergedStringData]
  | cons hd tl ih =>
    intro acc r
    obtain ⟨k, v⟩ := hd
    cases v with
    | str s =>
      rw [decodeDataEntries, specMergedStringData]
      cases hb : base64Decode s with
      | none => simp [specDecodeValue, hb]
      | some bytes =>
        cases hu : utf8DecodeString bytes with
        | none => simp [specDecodeValue, hb, hu]
        | some txt => simp [specDecodeValue, hb, hu, ih]
    | null => simp [decodeDataEntries, specMergedStringData, specDecodeValue]
    | bool b => simp [decodeDataEntries, specMergedStringData, specDecodeValue]
    | num n => simp [decodeDataEntries, specMergedStringData, specDecodeValue]
    | arr xs => simp [decodeDataEntries, specMergedStringData, specDecodeValue]
    | obj o => simp [decodeDataEntries, specMergedStringData, specDecodeValue]

/-- One successful step of the decode loop. -/
theorem decodeDataEntries_step (acc : List (String × Value)) (k : String) (v : Value)
    (rest : List (String × Value)) {t : String} (h : specDecodeValue v = some t) :
    decodeDataEntries acc ((k, v) :: rest) =
      decodeDataEntries (mapInsert acc k (.str t)) rest := by
  cases v with
  | str s =>
    simp only [specDecodeValue] at h
    cases hb : base64Decode s with
    | none => rw [hb] at h; exact absurd h (by simp)
    | some bytes =>
      rw [hb] at h
      simp only [Option.some_bind] at h
      simp [decodeDataEntries, hb, h]
  | null => exact absurd h (by simp [specDecodeValue])
  | bool b => exact absurd h (by simp [specDecodeValue])
  | num n => exact absurd h (by simp [specDecodeValue])
  | arr xs => exact absurd h (by simp [specDecodeValue])
  | obj o => exact absurd h (by simp [specDecodeValue])

/-- When the spec-side merge is defined, every `data` entry value decodes. -/
theorem specMergedStringData_some_all (de : List (String × Value)) :
    ∀ sd r, specMergedStringData sd de = some r →
    ∀ p ∈ de, ∃ t, specDecodeValue p.2 = some t := by
  induction de with
  | nil => intro sd r _ p hp; simp at hp
  | cons hd tl ih =>
    intro sd r h p hp
    obtain ⟨k, v⟩ := hd
    rw [specMergedStringData] at h
    cases hv : specDecodeValue v with
    | none => rw [hv] at h; exact absurd h (by simp)
    | some t =>
      rw [hv] at h
      simp only [Option.some_bind] at h
      rcases List.mem_cons.mp hp with he | hm
      · subst he; exact ⟨t, hv⟩
      · exact ih _ _ h p hm

/-- When the decode loop succeeds, every `data` entry value was a string
with valid base64/UTF-8 content. -/
theorem decodeDataEntries_ok_all (de : List (String × Value)) (acc r : List (String × Value))
    (h : decodeDataEntries acc de = .ok r) :
    ∀ p ∈ de, ∃ t, specDecodeValue p.2 = some t :=
  specMergedStringData_some_all de acc r ((decodeDataEntries_ok_iff de acc r).mp h)

/-- A prefix of entries that all decode successfully only advances the
accumulator of the decode loop. -/
theorem decodeDataEntries_append (pre : List (String × Value)) :
    ∀ acc rest, (∀ p ∈ pre, ∃ t, specDecodeValue p.2 = some t) →
    ∃ acc', decodeDataEntries acc (pre ++ rest) = decodeDataEntries acc' rest := by
  induction pre with
  | nil => intro acc rest _; exact ⟨acc, rfl⟩
  | cons hd tl ih =>
    intro acc rest hpre
    obtain ⟨k, v⟩ := hd
    obtain ⟨t, ht⟩ := hpre (k, v) (by simp)
    rw [List.cons_append, decodeDataEntries_step acc k v (tl ++ rest) ht]
    exact ih _ rest (fun p hp => hpre p (by simp [hp]))

/-- The decode loop fails with `decodeError` the moment it reaches an entry
whose string value is not valid base64. -/
theorem decodeDataEntries_bad_head (acc : List (String × Value)) (k s post)
    (hbad : base64Decode s = none) :
    decodeDataEntries acc ((k, Value.str s) :: post) = .error .decodeError := by
  simp [decodeDataEntries, hbad]

/-! ### The items loop -/

/-- A successful items loop transforms every element, in order. -/
theorem parseItems_ok_forall (xs : List Value) :
    ∀ ys, parseItems xs = .ok ys →
    List.Forall₂ (fun x y => parse_input x = .ok y) xs ys := by
  induction xs with
  | nil =>
    intro ys h
    rw [parseItems] at h
    injection h with h'
    subst h'
    exact List.Forall₂.nil
  | cons x xs ih =>
    intro ys h
    rw [parseItems] at h
    cases hx : parse_input x with
    | error e => rw [hx] at h; simp at h
    | ok y =>
      rw [hx] at h
      cases hxs : parseItems xs with
      | error e => rw [hxs] at h; simp at h
      | ok ys' =>
        rw [hxs] at h
        simp at h
        subst h
        exact List.Forall₂.cons hx (ih ys' hxs)

theorem mapRemoveKey_eq_of_none {m : List (String × Value)} {k : String}
    (h : mapGet m k = none) : mapRemoveKey m k = m := by
  induction m with
  | nil => simp [mapRemoveKey]
  | cons hd tl ih =>
    obtain ⟨k', v'⟩ := hd
    rw [mapGet] at h
    by_cases hk : k' = k
    · simp [hk] at h
    · rw [if_neg hk] at h
      simp [mapRemoveKey, hk, ih h]

theorem valueEqStr_true {v : Value} {s : String} (h : valueEqStr v s = true) :
    v = .str s := by
  cases v with
  | str t => simp [valueEqStr] at h; rw [h]
  | null => simp [valueEqStr] at h
  | bool b => simp [valueEqStr] at h
  | num n => simp [valueEqStr] at h
  | arr xs => simp [valueEqStr] at h
  | obj o => simp [valueEqStr] at h

/-- The shape of every successful run of the `Secret` branch: either there
was no `data` field and the object is returned as-is, or `data` was an
object, the optional `stringData` was an object, every `data` entry
decoded into the merge map, and the merge map was reinserted under
`stringData`. -/
theorem transformSecret_ok_shape {m : List (String × Value)} {out : Value}
    (h : transformSecret m = .ok out) :
    (mapGet m "data" = none ∧ out = .obj m) ∨
    (∃ de sd0 sd,
      mapGet m "data" = some (.obj de) ∧
      ((mapGet (mapRemoveKey m "data") "stringData" = none ∧ sd0 = []) ∨
       (∃ sdE, mapGet (mapRemoveKey m "data") "stringData" = some (.obj sdE) ∧
         sd0 = copyEntries [] sdE)) ∧
      decodeDataEntries sd0 de = .ok sd ∧
      out = .obj (mapInsert (mapRemoveKey (mapRemoveKey m "data") "stringData")
        "stringData" (.obj sd))) := by
  cases hd : mapGet m "data" with
  | none =>
    rw [transformSecret_no_data hd] at h
    injection h with h'
    exact Or.inl ⟨rfl, h'.symm⟩
  | some data =>
    right
    cases hsd : mapGet (mapRemoveKey m "data") "stringData" with
    | none =>
      cases data with
      | obj de =>
        rw [transformSecret_data_no_sd hd hsd] at h
        cases hde : decodeDataEntries [] de with
        | error e => rw [hde] at h; simp [Except.map] at h
        | ok sd =>
          rw [hde] at h
          simp [Except.map] at h
          refine ⟨de, [], sd, rfl, Or.inl ⟨rfl, rfl⟩, hde, ?_⟩
          rw [mapRemoveKey_eq_of_none hsd]
          exact h.symm
      | null => simp [transformSecret, hd, hsd] at h
      | bool b => simp [transformSecret, hd, hsd] at h
      | num n => simp [transformSecret, hd, hsd] at h
      | str s => simp [transformSecret, hd, hsd] at h
      | arr xs => simp [transformSecret, hd, hsd] at h
    | some esd =>
      cases esd with
      | obj esdE =>
        cases data with
        | obj de =>
          rw [transformSecret_data_sd hd hsd] at h
          cases hde : decodeDataEntries (copyEntries [] esdE) de with
          | error e => rw [hde] at h; simp [Except.map] at h
          | ok sd =>
            rw [hde] at h
            simp [Except.map] at h
            exact ⟨de, copyEntries [] esdE, sd, rfl, Or.inr ⟨esdE, rfl, rfl⟩, hde, h.symm⟩
        | null => simp [transformSecret, hd, hsd] at h
        | bool b => simp [transformSecret, hd, hsd] at h
        | num n => simp [transformSecret, hd, hsd] at h
        | str s => simp [transformSecret, hd, hsd] at h
        | arr xs => simp [transformSecret, hd, hsd] at h
      | null => simp [transformSecret, hd, hsd] at h
      | bool b => simp [transformSecret, hd, hsd] at h
      | num n => simp [transformSecret, hd, hsd] at h
      | str s => simp [transformSecret, hd, hsd] at h
      | arr xs => simp [transformSecret, hd, hsd] at h

/-! ### Concrete inputs from the spec's scenarios -/

/-- Scenario 2 input: a Secret with one base64 `data` entry. -/
def secretSimpleInput : List (String × Value) :=
  [("kind", .str "Secret"), ("data", .obj [("key", .str "dmFsdWU=")])]

/-- Scenario 2 output: `data` removed, decoded entry under `stringData`. -/
def secretSimpleOutput : Value :=
  .obj [("kind", .str "Secret"), ("stringData", .obj [("key", .str "value")])]

/-- Scenario 3 input: a Secret with both `data` and `stringData`. -/
def secretScenarioInput : List (String × Value) :=
  [("kind", .str "Secret"), ("data", .obj [("key", .str "dmFsdWU=")]),
   ("stringData", .obj [("hello", .str "world")])]

/-- Scenario 3 output: pre-existing `stringData` entries first, decoded
`data` entries merged after them. -/
def secretScenarioOutput : Value :=
  .obj [("kind", .str "Secret"),
    ("stringData", .obj [("hello", .str "world"), ("key", .str "value")])]

theorem parse_input_secretSimple :
    parse_input (.obj secretSimpleInput) = .ok secretSimpleOutput := by
  have hb : base64Decode "dmFsdWU=" = some [118, 97, 108, 117, 101] := by decide
  have hu : utf8DecodeString [118, 97, 108, 117, 101] = some "value" := by decide
  simp [secretSimpleInput, secretSimpleOutput, parse_input, transformSecret, mapGet,
    mapRemoveKey, mapInsert, decodeDataEntries, copyEntries, valueEqStr, hb, hu, Except.map]

theorem parse_input_secretScenario :
    parse_input (.obj secretScenarioInput) = .ok secretScenarioOutput := by
  have hb : base64Decode "dmFsdWU=" = some [118, 97, 108, 117, 101] := by decide
  have hu : utf8DecodeString [118, 97, 108, 117, 101] = some "value" := by decide
  simp [secretScenarioInput, secretScenarioOutput, parse_input, transformSecret, mapGet,
    mapRemoveKey, mapInsert, decodeDataEntries, copyEntries, valueEqStr, hb, hu, Except.map]

/-! ### The claims -/

/-- C9: a `kind: "Secret"` object without a `data` field is returned
exactly as-is; in particular a pre-existing `stringData` field keeps its
value and its position. -/
theorem secret_without_data_noop {m : List (String × Value)}
    (hk : mapGet m "kind" = some (.str "Secret"))
    (hd : mapGet m "data" = none) :
    parse_input (.obj m) = .ok (.obj m) := by
  rw [parse_input_secret hk, transformSecret_no_data hd]

/-- Witness for C9: a Secret carrying only `stringData` passes through
unchanged. -/
theorem secret_without_data_noop_witness :
    mapGet [("kind", Value.str "Secret"), ("stringData", Value.obj [("a", Value.str "b")])]
      "kind" = some (.str "Secret") ∧
    mapGet [("kind", Value.str "Secret"), ("stringData", Value.obj [("a", Value.str "b")])]
      "data" = none ∧
    parse_input
      (.obj [("kind", Value.str "Secret"), ("stringData", Value.obj [("a", Value.str "b")])]) =
      .ok (.obj [("kind", Value.str "Secret"), ("stringData", Value.obj [("a", Value.str "b")])]) :=
  ⟨rfl, rfl, secret_without_data_noop rfl rfl⟩

/-- Whether a value is one of the two recognized resource shapes: an
object whose `kind` compares equal to `"Secret"` or `"List"`. -/
def isResource : Value → Bool
  | .obj m =>
    match mapGet m "kind" with
    | some kind => valueEqStr kind "Secret" || valueEqStr kind "List"
    | none => false
  | _ => false

/-- C7: any value that is not an object, and any object whose `kind` is
absent or different from `"Secret"`/`"List"`, passes through untouched. -/
theorem non_resource_identity (v : Value) (h : isResource v = false) :
    parse_input v = .ok v := by
  cases v with
  | obj m =>
    cases hk : mapGet m "kind" with
    | none => exact parse_input_no_kind hk
    | some kind =>
      simp only [isResource, hk, Bool.or_eq_false_iff] at h
      exact parse_input_other_kind hk h.1 h.2
  | null => simp [parse_input]
  | bool b => simp [parse_input]
  | num n => simp [parse_input]
  | str s => simp [parse_input]
  | arr xs => simp [parse_input]

/-- Witness for C7 at Scenario 1: `{"foo": "bar"}` is unchanged. -/
theorem non_resource_identity_witness :
    isResource (.obj [("foo", Value.str "bar")]) = false ∧
    parse_input (.obj [("foo", Value.str "bar")]) = .ok (.obj [("foo", Value.str "bar")]) :=
  ⟨by decide, non_resource_identity _ (by decide)⟩

/-- C10: the transform is a total function of the input value; it is
defined by well-founded recursion on the size of the value (the only
recursive call is on elements of an `items` array, strict subterms), so
it produces a result for every finite input. -/
theorem parse_input_total (v : Value) :
    ∃ r : Except TransformError Value, parse_input v = r :=
  ⟨parse_input v, rfl⟩

/-- C2: a successful transform of a Secret that had a `data` field yields
an object with no `data` key. -/
theorem secret_output_has_no_data_key {m : List (String × Value)} {out : Value}
    (hnd : (mapKeys m).Nodup)
    (hk : mapGet m "kind" = some (.str "Secret"))
    (hd : (mapGet m "data").isSome)
    (hok : parse_input (.obj m) = .ok out) :
    ∃ m', out = .obj m' ∧ mapGet m' "data" = none := by
  rw [parse_input_secret hk] at hok
  rcases transformSecret_ok_shape hok with ⟨hnone, _⟩ | ⟨de, sd0, sd, hdata, _, hde, hout⟩
  · rw [hnone] at hd; simp at hd
  · refine ⟨_, hout, ?_⟩
    rw [mapGet_mapInsert_ne _ (by decide) _, mapGet_mapRemoveKey_ne _ (by decide)]
    exact mapGet_mapRemoveKey_self hnd

/-- Witness for C2 at Scenario 2. -/
theorem secret_output_has_no_data_key_witness :
    (mapKeys secretSimpleInput).Nodup ∧
    mapGet secretSimpleInput "kind" = some (.str "Secret") ∧
    (mapGet secretSimpleInput "data").isSome ∧
    parse_input (.obj secretSimpleInput) = .ok secretSimpleOutput ∧
    ∃ m', secretSimpleOutput = .obj m' ∧ mapGet m' "data" = none :=
  ⟨by decide, rfl, rfl, parse_input_secretSimple,
   @secret_output_has_no_data_key secretSimpleInput secretSimpleOutput
     (by decide) rfl rfl parse_input_secretSimple⟩

/-- C6: on Secrets, the transform is idempotent: a second pass finds no
`data` field left and returns the first pass's output unaltered. -/
theorem secret_transform_idempotent {m : List (String × Value)} {w : Value}
    (hnd : (mapKeys m).Nodup)
    (hk : mapGet m "kind" = some (.str "Secret"))
    (hok : parse_input (.obj m) = .ok w) :
    parse_input w = .ok w := by
  rw [parse_input_secret hk] at hok
  rcases transformSecret_ok_shape hok with ⟨hnone, hw⟩ | ⟨de, sd0, sd, hdata, _, hde, hw⟩
  · subst hw
    rw [parse_input_secret hk, transformSecret_no_data hnone]
  · subst hw
    have hk' : mapGet (mapInsert (mapRemoveKey (mapRemoveKey m "data") "stringData")
        "stringData" (.obj sd)) "kind" = some (.str "Secret") := by
      rw [mapGet_mapInsert_ne _ (by decide) _, mapGet_mapRemoveKey_ne _ (by decide),
        mapGet_mapRemoveKey_ne _ (by decide)]
      exact hk
    have hd' : mapGet (mapInsert (mapRemoveKey (mapRemoveKey m "data") "stringData")
        "stringData" (.obj sd)) "data" = none := by
      rw [mapGet_mapInsert_ne _ (by decide) _, mapGet_mapRemoveKey_ne _ (by decide)]
      exact mapGet_mapRemoveKey_self hnd
    rw [parse_input_secret hk', transformSecret_no_data hd']

/-- Witness for C6 at Scenario 2: a second pass leaves the output fixed. -/
theorem secret_transform_idempotent_witness :
    (mapKeys secretSimpleInput).Nodup ∧
    mapGet secretSimpleInput "kind" = some (.str "Secret") ∧
    parse_input (.obj secretSimpleInput) = .ok secretSimpleOutput ∧
    parse_input secretSimpleOutput = .ok secretSimpleOutput :=
  ⟨by decide, rfl, parse_input_secretSimple,
   @secret_transform_idempotent secretSimpleInput secretSimpleOutput
     (by decide) rfl parse_input_secretSimple⟩

/-- C1: on a Secret with a `data` field, the output's `stringData` equals
the spec's merge map: the pre-transform `stringData` entries (if present)
first, then each decoded `data` entry inserted over them in order. -/
theorem secret_data_merged_into_stringData {m de : List (String × Value)}
    {sdOpt : Option (List (String × Value))} {out : Value}
    (hk : mapGet m "kind" = some (.str "Secret"))
    (hd : mapGet m "data" = some (.obj de))
    (hsd : mapGet (mapRemoveKey m "data") "stringData" = Option.map Value.obj sdOpt)
    (hnd : ((sdOpt.getD []).map Prod.fst).Nodup)
    (hok : parse_input (.obj m) = .ok out) :
    ∃ merged m', specMergedStringData (sdOpt.getD []) de = some merged ∧
      out = .obj m' ∧ mapGet m' "stringData" = some (.obj merged) := by
  rw [parse_input_secret hk] at hok
  cases sdOpt with
  | none =>
    simp at hsd
    rw [transformSecret_data_no_sd hd hsd] at hok
    cases hde : decodeDataEntries [] de with
    | error e => rw [hde] at hok; simp [Except.map] at hok
    | ok sd =>
      rw [hde] at hok
      simp [Except.map] at hok
      refine ⟨sd, _, ?_, hok.symm, mapGet_mapInsert_self _ _ _⟩
      simpa using (decodeDataEntries_ok_iff de [] sd).mp hde
  | some sdE =>
    simp at hsd
    rw [transformSecret_data_sd hd hsd] at hok
    rw [copyEntries_nil sdE (by simpa using hnd)] at hok
    cases hde : decodeDataEntries sdE de with
    | error e => rw [hde] at hok; simp [Except.map] at hok
    | ok sd =>
      rw [hde] at hok
      simp [Except.map] at hok
      refine ⟨sd, _, ?_, hok.symm, mapGet_mapInsert_self _ _ _⟩
      simpa using (decodeDataEntries_ok_iff de sdE sd).mp hde

/-- Witness for C1 at Scenario 3: `stringData = {"hello": "world"}` and
`data = {"key": base64("value")}` merge to
`{"hello": "world", "key": "value"}`. -/
theorem secret_data_merged_into_stringData_witness :
    mapGet secretScenarioInput "kind" = some (.str "Secret") ∧
    mapGet secretScenarioInput "data" = some (.obj [("key", Value.str "dmFsdWU=")]) ∧
    mapGet (mapRemoveKey secretScenarioInput "data") "stringData" =
      Option.map Value.obj (some [("hello", Value.str "world")]) ∧
    parse_input (.obj secretScenarioInput) = .ok secretScenarioOutput ∧
    (∃ merged m', specMergedStringData [("hello", Value.str "world")]
        [("key", Value.str "dmFsdWU=")] = some merged ∧
      secretScenarioOutput = .obj m' ∧ mapGet m' "stringData" = some (.obj merged)) :=
  ⟨rfl, rfl, rfl, parse_input_secretScenario,
   @secret_data_merged_into_stringData secretScenarioInput [("key", Value.str "dmFsdWU=")]
     (some [("hello", Value.str "world")]) secretScenarioOutput
     rfl rfl rfl (by decide) parse_input_secretScenario⟩

/-- C3: on a List whose `items` is an array, the output `items` is an
array of the same length, each element the transform of the input element
at the same position, in order. -/
theorem list_items_transformed_elementwise {m : List (String × Value)}
    {xs : List Value} {out : Value}
    (hk : mapGet m "kind" = some (.str "List"))
    (hi : mapGet m "items" = some (.arr xs))
    (hok : parse_input (.obj m) = .ok out) :
    ∃ ys, out = .obj (mapInsert m "items" (.arr ys)) ∧
      ys.length = xs.length ∧
      List.Forall₂ (fun x y => parse_input x = .ok y) xs ys := by
  rw [parse_input_list_arr hk hi] at hok
  cases hys : parseItems xs with
  | error e => rw [hys] at hok; simp [Except.map] at hok
  | ok ys =>
    rw [hys] at hok
    simp [Except.map] at hok
    have hf := parseItems_ok_forall xs ys hys
    exact ⟨ys, hok.symm, hf.length_eq.symm, hf⟩

/-- A non-Secret item carrying an unrelated `data` field (Scenario 4's
second element). -/
def podItem : List (String × Value) :=
  [("kind", .str "Pod"), ("data", .obj [("key", .str "dmFsdWU=")])]

/-- Scenario 4 input: a List wrapping a Secret and a Pod. -/
def listScenarioInput : List (String × Value) :=
  [("kind", .str "List"), ("items", .arr [.obj secretSimpleInput, .obj podItem])]

/-- Scenario 4 output: the Secret decoded, the Pod untouched. -/
def listScenarioOutput : Value :=
  .obj [("kind", .str "List"), ("items", .arr [secretSimpleOutput, .obj podItem])]

/-- Witness for C3 at Scenario 4: the Secret item is decoded, the Pod item
(with its `data` field) survives verbatim, length and order preserved. -/
theorem list_items_transformed_elementwise_witness :
    mapGet listScenarioInput "kind" = some (.str "List") ∧
    mapGet listScenarioInput "items" =
      some (.arr [.obj secretSimpleInput, .obj podItem]) ∧
    parse_input (.obj listScenarioInput) = .ok listScenarioOutput ∧
    (∃ ys, listScenarioOutput = .obj (mapInsert listScenarioInput "items" (.arr ys)) ∧
      ys.length = [Value.obj secretSimpleInput, Value.obj podItem].length ∧
      List.Forall₂ (fun x y => parse_input x = .ok y)
        [.obj secretSimpleInput, .obj podItem] ys) := by
  have hpod : parse_input (.obj podItem) = .ok (.obj podItem) := by
    simp [podItem, parse_input, mapGet, valueEqStr]
  have hitems : parseItems [.obj secretSimpleInput, .obj podItem] =
      .ok [secretSimpleOutput, .obj podItem] := by
    simp [parseItems, parse_input_secretSimple, hpod]
  have hok : parse_input (.obj listScenarioInput) = .ok listScenarioOutput := by
    rw [@parse_input_list_arr listScenarioInput [.obj secretSimpleInput, .obj podItem] rfl rfl, hitems]
    rfl
  exact ⟨rfl, rfl, hok,
    @list_items_transformed_elementwise listScenarioInput
      [.obj secretSimpleInput, .obj podItem] listScenarioOutput rfl rfl hok⟩

/-- A Secret whose `data` holds a non-string entry (iterated first) and an
invalid-base64 string entry. -/
def mixedBadSecretInput : List (String × Value) :=
  [("kind", .str "Secret"), ("data", .obj [("a", .bool true), ("b", .str "!!!")])]

/-- C4 counterexample: this input has a `data` entry (`"b"`) whose string
value is not valid base64, yet the transform fails with `typeError` (the
non-string entry `"a"` is hit first), not `decodeError` — so the claim
that every such input fails with `DecodeError` is false. -/
theorem invalid_base64_not_decodeError_cex :
    base64Decode "!!!" = none ∧
    parse_input (.obj mixedBadSecretInput) = .error .typeError ∧
    parse_input (.obj mixedBadSecretInput) ≠ .error .decodeError := by
  have h : parse_input (.obj mixedBadSecretInput) = .error .typeError := by
    simp [mixedBadSecretInput, parse_input, transformSecret, mapGet, mapRemoveKey,
      mapInsert, decodeDataEntries, copyEntries, valueEqStr, Except.map]
  exact ⟨by decide, h, by rw [h]; simp⟩

/-- C4 (amended): a Secret whose `data` contains an entry with an invalid
base64 string never transforms successfully, and the failure is
`decodeError` when that entry is the first failure the loop meets: every
earlier `data` entry decodes, and any pre-existing `stringData` is an
object. -/
theorem secret_invalid_base64_fails {m de : List (String × Value)}
    (hk : mapGet m "kind" = some (.str "Secret"))
    (hd : mapGet m "data" = some (.obj de)) :
    ((∃ k s, (k, Value.str s) ∈ de ∧ base64Decode s = none) →
      ∀ v, parse_input (.obj m) ≠ .ok v) ∧
    (∀ pre k s post, de = pre ++ (k, Value.str s) :: post →
      base64Decode s = none →
      (∀ p ∈ pre, ∃ t, specDecodeValue p.2 = some t) →
      (mapGet (mapRemoveKey m "data") "stringData" = none ∨
        ∃ esdE, mapGet (mapRemoveKey m "data") "stringData" = some (.obj esdE)) →
      parse_input (.obj m) = .error .decodeError) := by
  constructor
  · rintro ⟨k, s, hmem, hbad⟩ v hok
    rw [parse_input_secret hk] at hok
    rcases transformSecret_ok_shape hok with ⟨hnone, _⟩ | ⟨de', sd0, sd, hdata, _, hde, _⟩
    · rw [hd] at hnone
      exact absurd hnone (by simp)
    · rw [hd] at hdata
      injection hdata with h1
      injection h1 with h2
      subst h2
      obtain ⟨t, ht⟩ := decodeDataEntries_ok_all de sd0 sd hde (k, .str s) hmem
      simp [specDecodeValue, hbad] at ht
  · intro pre k s post hsplit hbad hpre hesd
    rw [parse_input_secret hk]
    rcases hesd with hnone | ⟨esdE, hsome⟩
    · rw [transformSecret_data_no_sd hd hnone, hsplit]
      obtain ⟨acc', hacc⟩ := decodeDataEntries_append pre [] ((k, Value.str s) :: post) hpre
      rw [hacc, decodeDataEntries_bad_head acc' k s post hbad]
      rfl
    · rw [transformSecret_data_sd hd hsome, hsplit]
      obtain ⟨acc', hacc⟩ :=
        decodeDataEntries_append pre (copyEntries [] esdE) ((k, Value.str s) :: post) hpre
      rw [hacc, decodeDataEntries_bad_head acc' k s post hbad]
      rfl

/-- Witness for the amended C4: a Secret whose only `data` entry is the
invalid base64 string `"!!!"` fails with `decodeError`. -/
theorem secret_invalid_base64_fails_witness :
    mapGet [("kind", Value.str "Secret"), ("data", Value.obj [("b", Value.str "!!!")])]
      "kind" = some (.str "Secret") ∧
    mapGet [("kind", Value.str "Secret"), ("data", Value.obj [("b", Value.str "!!!")])]
      "data" = some (.obj [("b", Value.str "!!!")]) ∧
    parse_input (.obj [("kind", Value.str "Secret"), ("data", Value.obj [("b", Value.str "!!!")])])
      = .error .decodeError :=
  ⟨rfl, rfl,
   (@secret_invalid_base64_fails
      [("kind", Value.str "Secret"), ("data", Value.obj [("b", Value.str "!!!")])]
      [("b", Value.str "!!!")] rfl rfl).2
     [] "b" "!!!" [] rfl (by decide)
     (fun p hp => absurd hp (List.not_mem_nil p)) (Or.inl rfl)⟩

/-- A List whose `items` field is a string rather than an array. -/
def listBadItemsInput : List (String × Value) :=
  [("kind", .str "List"), ("items", .str "oops")]

/-- C5 counterexample: a List whose `items` is not an array is not
returned unchanged — the transform fails (`as_array().unwrap()` aborts,
embedded as `typeError`). -/
theorem list_nonarray_items_cex :
    parse_input (.obj listBadItemsInput) = .error .typeError ∧
    parse_input (.obj listBadItemsInput) ≠ .ok (.obj listBadItemsInput) := by
  have h : parse_input (.obj listBadItemsInput) = .error .typeError := by
    simp [listBadItemsInput, parse_input, mapGet, valueEqStr]
  exact ⟨h, by rw [h]; simp⟩

/-- C5 (amended): on a List, an absent `items` field leaves the object
unchanged, but a present non-array `items` makes the transform fail with
`typeError` instead of leaving the object unchanged. -/
theorem list_items_absent_or_nonarray {m : List (String × Value)}
    (hk : mapGet m "kind" = some (.str "List")) :
    (mapGet m "items" = none → parse_input (.obj m) = .ok (.obj m)) ∧
    (∀ it, mapGet m "items" = some it → (∀ xs, it ≠ .arr xs) →
      parse_input (.obj m) = .error .typeError) :=
  ⟨fun hi => parse_input_list_no_items hk hi,
   fun it hi hna => parse_input_list_bad_items hk hi hna⟩

/-- Witness for the amended C5: a List without `items` passes through. -/
theorem list_items_absent_or_nonarray_witness :
    mapGet [("kind", Value.str "List")] "kind" = some (.str "List") ∧
    parse_input (.obj [("kind", Value.str "List")]) =
      .ok (.obj [("kind", Value.str "List")]) :=
  ⟨rfl, (@list_items_absent_or_nonarray [("kind", Value.str "List")] rfl).1 rfl⟩

/-- The key order the transform's output object should have, per the key
order invariant: unchanged, except that a Secret with a `data` field loses
`data` and has `stringData` (re)inserted as the last key. -/
def expectedKeyOrder (m : List (String × Value)) : List String :=
  match mapGet m "kind", mapGet m "data" with
  | some kind, some _ =>
    if valueEqStr kind "Secret" then
      (((mapKeys m).erase "data").erase "stringData") ++ ["stringData"]
    else mapKeys m
  | _, _ => mapKeys m

/-- C8: a successful transform preserves the input object's key insertion
order, except that on a Secret with a `data` field the `data` key is
dropped and `stringData` moves to (or is appended at) the end. -/
theorem key_order_preserved {m : List (String × Value)} {out : Value}
    (hnd : (mapKeys m).Nodup)
    (hok : parse_input (.obj m) = .ok out) :
    ∃ m', out = .obj m' ∧ mapKeys m' = expectedKeyOrder m := by
  cases hk : mapGet m "kind" with
  | none =>
    rw [parse_input_no_kind hk] at hok
    injection hok with h'
    exact ⟨m, h'.symm, by simp [expectedKeyOrder, hk]⟩
  | some kind =>
    cases hks : valueEqStr kind "Secret" with
    | true =>
      have hkind := valueEqStr_true hks
      subst hkind
      rw [parse_input_secret hk] at hok
      rcases transformSecret_ok_shape hok with ⟨hnone, hw⟩ | ⟨de, sd0, sd, hdata, _, hde, hw⟩
      · exact ⟨m, hw, by simp [expectedKeyOrder, hk, hnone]⟩
      · refine ⟨_, hw, ?_⟩
        have hmem : "stringData" ∉
            mapKeys (mapRemoveKey (mapRemoveKey m "data") "stringData") := by
          rw [mapKeys_mapRemoveKey, mapKeys_mapRemoveKey]
          intro hmem
          have hnd2 : ((mapKeys m).erase "data").Nodup := hnd.erase "data"
          exact absurd (hnd2.mem_erase_iff.mp hmem).1 (by simp)
        rw [mapInsert_of_not_mem (mapGet_eq_none_of_not_mem hmem) _]
        rw [mapKeys_append, mapKeys_mapRemoveKey, mapKeys_mapRemoveKey]
        simp [expectedKeyOrder, hk, hdata, valueEqStr, mapKeys]
    | false =>
      cases hkl : valueEqStr kind "List" with
      | false =>
        rw [parse_input_other_kind hk hks hkl] at hok
        injection hok with h'
        refine ⟨m, h'.symm, ?_⟩
        cases hd : mapGet m "data" with
        | none => simp [expectedKeyOrder, hk, hd]
        | some d => simp [expectedKeyOrder, hk, hd, hks]
      | true =>
        have hkind := valueEqStr_true hkl
        subst hkind
        cases hi : mapGet m "items" with
        | none =>
          rw [parse_input_list_no_items hk hi] at hok
          injection hok with h'
          refine ⟨m, h'.symm, ?_⟩
          cases hd : mapGet m "data" with
          | none => simp [expectedKeyOrder, hk, hd]
          | some d => simp [expectedKeyOrder, hk, hd, valueEqStr]
        | some it =>
          cases it with
          | arr xs =>
            rw [parse_input_list_arr hk hi] at hok
            cases hys : parseItems xs with
            | error e => rw [hys] at hok; simp [Except.map] at hok
            | ok ys =>
              rw [hys] at hok
              simp [Except.map] at hok
              refine ⟨_, hok.symm, ?_⟩
              rw [mapKeys_mapInsert_of_mem (by rw [hi]; simp) _]
              cases hd : mapGet m "data" with
              | none => simp [expectedKeyOrder, hk, hd]
              | some d => simp [expectedKeyOrder, hk, hd, valueEqStr]
          | null =>
            rw [parse_input_list_bad_items hk hi (fun xs h => Value.noConfusion h)] at hok
            simp at hok
          | bool b =>
            rw [parse_input_list_bad_items hk hi (fun xs h => Value.noConfusion h)] at hok
            simp at hok
          | num n =>
            rw [parse_input_list_bad_items hk hi (fun xs h => Value.noConfusion h)] at hok
            simp at hok
          | str s =>
            rw [parse_input_list_bad_items hk hi (fun xs h => Value.noConfusion h)] at hok
            simp at hok
          | obj o =>
            rw [parse_input_list_bad_items hk hi (fun xs h => Value.noConfusion h)] at hok
            simp at hok

/-- Witness for C8 at Scenario 3: the keys `kind, data, stringData` become
`kind, stringData`, with `stringData` moved to the end. -/
theorem key_order_preserved_witness :
    (mapKeys secretScenarioInput).Nodup ∧
    parse_input (.obj secretScenarioInput) = .ok secretScenarioOutput ∧
    (∃ m', secretScenarioOutput = .obj m' ∧
      mapKeys m' = expectedKeyOrder secretScenarioInput) :=
  ⟨by decide, parse_input_secretScenario,
   @key_order_preserved secretScenarioInput secretScenarioOutput
     (by decide) parse_input_secretScenario⟩
